import Mathlib

/-!
Shallow embedding of `grotto/client.py`, the batch-dispatch decorator
`_dispatch_method` and the `GrottoClient` configuration it reads.

The wrapped single-item operation (`method` in the source) is modelled as a
function `op : α → κ → Except ε PyVal`: it takes one item and the fixed
keyword options and either returns a Python value or raises an error of
type `ε`.  Python exceptions are modelled with `Except`; Python values that
per-item results can take are modelled by `PyVal` (an opaque scalar, or a
list of values — the only distinction the dataframe assembly inspects).

External collaborators are modelled by their contracts, as the spec directs:
`tqdm`/`tqdm_joblib` as a tick counter (one tick per completed item, disabled
when `verbose == 0`), and `joblib.Parallel` as a pool that may complete the
submitted tasks in an arbitrary order (a permutation parameter) but hands the
results back keyed by task index, reassembled in submission order; a failing
task aborts the batch with that task's error.
-/

namespace Grotto

/-- Model of a Python value produced by one invocation of the wrapped
single-item operation: either a non-iterable scalar or an iterable of
values (what `for x in data` can traverse). -/
inductive PyVal : Type where
  | atom : Int → PyVal
  | list : List PyVal → PyVal
deriving Repr

/-- Errors the batch wrapper can surface to its caller: the wrapped
operation's own exception propagating unchanged, or the `TypeError`
raised by `for x in data` in the `"dataframe"` branch when a per-item
result is not iterable (it carries the offending value, not the item). -/
inductive BatchError (ε : Type) : Type where
  | task : ε → BatchError ε
  | notIterable : PyVal → BatchError ε
deriving Repr

/-- Configuration read from the owning `GrottoClient` object at call time:
`n_jobs` (`None` or an integer) and `verbose` (progress enabled). -/
structure Config : Type where
  n_jobs : Option Int
  verbose : Bool

/-- Branch test of the wrapper: `if self.n_jobs == 1`.  Python's
`None == 1` is `False`, so `none` takes the concurrent branch. -/
def isSequential (cfg : Config) : Bool :=
  cfg.n_jobs == some 1

/-- Constructor logic of `GrottoClient.__init__` for `n_jobs`:
`self.n_jobs = kwargs.pop("n_jobs")` when the key is present, else `None`.
The argument is `some v` when the caller passed `n_jobs=v`, `none` when
the keyword was absent. -/
def initNJobs (kw : Option (Option Int)) : Option Int :=
  match kw with
  | some v => v
  | none => none

/-- Sequential branch of the wrapper:
`for item in tqdm(array, ..., disable=self.verbose == 0): data_by_object.append(method(self, item, **kwargs))`.
Returns the items on which the operation was actually invoked (in order),
the number of progress ticks emitted (tqdm ticks once per completed loop
body iteration, none when disabled), and either the collected results or
the first raised error, which aborts the loop with no partial result. -/
def seqExec (op : α → κ → Except ε PyVal) (kwargs : κ) (verbose : Bool) :
    List α → List α × Nat × Except ε (List PyVal)
  | [] => ([], 0, Except.ok [])
  | a :: rest =>
    match op a kwargs with
    | Except.error e => ([a], 0, Except.error e)
    | Except.ok r =>
      let out := seqExec op kwargs verbose rest
      (a :: out.1, (if verbose then 1 else 0) + out.2.1,
        out.2.2.map (fun rs => r :: rs))

/-- One pool task: `joblib.delayed(method)(self, item, **kwargs)` for the
item at a given index of `array`; tasks are pure functions of the item and
the fixed options. -/
def poolTask (op : α → κ → Except ε PyVal) (kwargs : κ) (items : List α)
    (i : Fin items.length) : Except ε PyVal :=
  op (items.get i) kwargs

/-- Pool completion stream: the pool may finish the tasks in any order,
modelled by a permutation of the task indices; each completed task reports
its index together with its outcome. -/
def completionOrder (op : α → κ → Except ε PyVal) (kwargs : κ)
    (items : List α) (perm : Equiv.Perm (Fin items.length)) :
    List (Fin items.length × Except ε PyVal) :=
  List.ofFn (fun j => (perm j, poolTask op kwargs items (perm j)))

/-- Collection of the completion stream: counts one progress tick per task
completed before a failure (the `tqdm_joblib` callback), records which task
indices ran, and aborts with the failing task's error, abandoning the rest
of the stream (pool teardown on failure, no partial result). -/
def collectCompleted :
    List (Fin n × Except ε PyVal) →
      List (Fin n) × Nat × Except ε (List (Fin n × PyVal))
  | [] => ([], 0, Except.ok [])
  | (i, Except.error e) :: _ => ([i], 0, Except.error e)
  | (i, Except.ok r) :: rest =>
    let out := collectCompleted rest
    (i :: out.1, out.2.1 + 1, out.2.2.map (fun ps => (i, r) :: ps))

/-- Reassembly of completed results into task submission order, by task
index — `joblib.Parallel` returns `data_by_object` aligned with the order
the delayed tasks were built from `array`, not completion order. -/
def reassemble (pairs : List (Fin m × PyVal)) : List PyVal :=
  List.ofFn (fun i : Fin m =>
    (Option.map Prod.snd (pairs.find? (fun p => decide (p.1 = i)))).getD
      (PyVal.atom 0))

/-- Concurrent branch of the wrapper: build one delayed task per item,
run them under `tqdm_joblib(total=n_tasks, ..., disable=self.verbose == 0)`
through `joblib.Parallel(n_jobs=self.n_jobs)`, which completes them in an
arbitrary order but returns the results in submission order. -/
def parExec (op : α → κ → Except ε PyVal) (kwargs : κ) (verbose : Bool)
    (items : List α) (perm : Equiv.Perm (Fin items.length)) :
    List α × Nat × Except ε (List PyVal) :=
  let out := collectCompleted (completionOrder op kwargs items perm)
  (out.1.map (fun i => items.get i),
    if verbose then out.2.1 else 0,
    out.2.2.map (fun pairs => reassemble pairs))

/-- Python dict update `m[k] = v`: overwrite in place when the key is
already present (keeping its first-insertion position), else append. -/
def pyDictInsert [DecidableEq α] (m : List (α × PyVal)) (k : α) (v : PyVal) :
    List (α × PyVal) :=
  if m.any (fun p => decide (p.1 = k)) then
    m.map (fun p => if p.1 = k then (k, v) else p)
  else
    m ++ [(k, v)]

/-- The dict comprehension `{item: data for item, data in zip(array, data_by_object)}`:
entries are inserted left to right, a duplicate key silently overwriting
the earlier entry's value. -/
def pyDictOfPairs [DecidableEq α] (ps : List (α × PyVal)) : List (α × PyVal) :=
  ps.foldl (fun m p => pyDictInsert m p.1 p.2) []

/-- The `"dataframe"` assembly loop:
`for item, data in zip(array, data_by_object): for x in data: new_data.append({"object": item, "data": x})`.
Iterating `data` when it is not a list raises `TypeError` (carrying the
offending value), aborting with no rows returned. -/
def explodeRows : List (α × PyVal) → Except PyVal (List (α × PyVal))
  | [] => Except.ok []
  | (_, PyVal.atom v) :: _ => Except.error (PyVal.atom v)
  | (item, PyVal.list xs) :: rest =>
    (explodeRows rest).map
      (fun tail => (xs.map (fun x => (item, x))) ++ tail)

/-- Aggregated result of the wrapper: the Python value it returns — a list,
a dict, a dataframe (its rows, each `(object, data)`), or Python `None`
when `output_format` matches no branch of the assembly conditional. -/
inductive Output (α : Type) : Type where
  | list : List PyVal → Output α
  | dict : List (α × PyVal) → Output α
  | dataframe : List (α × PyVal) → Output α
  | none : Output α
deriving Repr

/-- Assembly step of the wrapper: the trailing
`if output_format == "list" ... elif "dict" ... elif "dataframe" ...`
conditional, applied to `array` and the collected `data_by_object`;
an unmatched `output_format` falls off the end and returns `None`. -/
def assemble [DecidableEq α] (output_format : String) (items : List α)
    (data_by_object : List PyVal) : Except (BatchError ε) (Output α) :=
  if output_format = "list" then
    Except.ok (Output.list data_by_object)
  else if output_format = "dict" then
    Except.ok (Output.dict (pyDictOfPairs (items.zip data_by_object)))
  else if output_format = "dataframe" then
    match explodeRows (items.zip data_by_object) with
    | Except.error v => Except.error (BatchError.notIterable v)
    | Except.ok rows => Except.ok (Output.dataframe rows)
  else
    Except.ok Output.none

/-- Observable outcome of one call of the wrapped batch method: the items
the single-item operation was invoked on, the progress ticks emitted, and
the returned aggregate or the raised error. -/
structure BatchRun (α ε : Type) : Type where
  invoked : List α
  ticks : Nat
  output : Except (BatchError ε) (Output α)

/-- The whole wrapper produced by `_dispatch_method(output_format=...)`:
choose the sequential or the pool branch on `self.n_jobs == 1`, then
assemble `data_by_object` per the fixed `output_format`.  `perm` is the
completion schedule the pool happens to follow (unused by the sequential
branch). -/
def dispatchRun [DecidableEq α] (output_format : String)
    (op : α → κ → Except ε PyVal) (kwargs : κ) (cfg : Config)
    (items : List α) (perm : Equiv.Perm (Fin items.length)) : BatchRun α ε :=
  let r :=
    if isSequential cfg then seqExec op kwargs cfg.verbose items
    else parExec op kwargs cfg.verbose items perm
  { invoked := r.1
    ticks := r.2.1
    output :=
      match r.2.2 with
      | Except.error e => Except.error (BatchError.task e)
      | Except.ok data_by_object => assemble output_format items data_by_object }

/-- Sequential execution where every invocation succeeds: every item is
visited in order, one tick per item when progress is enabled, and the
collected results are the per-item results in input order. -/
theorem seqExec_ok (op : α → κ → Except ε PyVal) (kwargs : κ) (v : Bool)
    (res : α → PyVal) (items : List α)
    (h : ∀ a ∈ items, op a kwargs = Except.ok (res a)) :
    seqExec op kwargs v items =
      (items, (if v then items.length else 0), Except.ok (items.map res)) := by
  induction items with
  | nil => simp [seqExec]
  | cons a rest ih =>
    have ha : op a kwargs = Except.ok (res a) := h a (List.mem_cons_self a rest)
    have hrest : ∀ b ∈ rest, op b kwargs = Except.ok (res b) :=
      fun b hb => h b (List.mem_cons_of_mem a hb)
    simp only [seqExec, ha, ih hrest, Except.map, List.map_cons]
    cases v <;> simp [Nat.add_comm]

/-- Collecting a completion stream in which every task succeeded yields all
the (index, result) pairs in completion order, one tick per task. -/
theorem collectCompleted_map_ok (ps : List (Fin m × PyVal)) :
    collectCompleted (ε := ε) (ps.map (fun p => (p.1, Except.ok p.2))) =
      (ps.map Prod.fst, ps.length, Except.ok ps) := by
  induction ps with
  | nil => simp [collectCompleted]
  | cons p rest ih =>
    cases p with
    | mk i r => simp [collectCompleted, ih, Except.map]

/-- Completion stream of an all-successful batch, as a map over the pure
(index, value) stream. -/
theorem completionOrder_ok (op : α → κ → Except ε PyVal) (kwargs : κ)
    (items : List α) (perm : Equiv.Perm (Fin items.length)) (res : α → PyVal)
    (h : ∀ a ∈ items, op a kwargs = Except.ok (res a)) :
    completionOrder op kwargs items perm =
      (List.ofFn (fun j => (perm j, res (items.get (perm j))))).map
        (fun p => (p.1, Except.ok p.2)) := by
  rw [List.map_ofFn]
  unfold completionOrder
  congr 1
  funext j
  simp only [Function.comp_apply, poolTask]
  rw [h (items.get (perm j)) (List.get_mem items (perm j).1 (perm j).2)]

/-- Finding the entry for index `i` in a permuted (index, value) stream
returns exactly `i`'s value: the permutation cannot change what the
reassembly associates with each task. -/
theorem find?_ofFn_perm (perm : Equiv.Perm (Fin m)) (f : Fin m → PyVal)
    (i : Fin m) :
    (List.ofFn (fun j => (perm j, f (perm j)))).find?
        (fun p => decide (p.1 = i)) = some (i, f i) := by
  have hmem : (i, f i) ∈ List.ofFn (fun j => (perm j, f (perm j))) := by
    rw [List.mem_ofFn]
    exact ⟨perm.symm i, by simp⟩
  have hsome : ((List.ofFn (fun j => (perm j, f (perm j)))).find?
      (fun p => decide (p.1 = i))).isSome := by
    rw [List.find?_isSome]
    exact ⟨(i, f i), hmem, by simp⟩
  obtain ⟨q, hq⟩ := Option.isSome_iff_exists.mp hsome
  have hpq := List.find?_some hq
  have hqmem := List.mem_of_find?_eq_some hq
  rw [List.mem_ofFn] at hqmem
  obtain ⟨j, hj⟩ := hqmem
  rw [hq]
  subst hj
  have hji : perm j = i := by simpa using hpq
  simp only [hji]

/-- Reassembling a permuted all-successful completion stream restores the
results in task submission order, independently of the permutation. -/
theorem reassemble_perm (perm : Equiv.Perm (Fin m)) (f : Fin m → PyVal) :
    reassemble (List.ofFn (fun j => (perm j, f (perm j)))) = List.ofFn f := by
  unfold reassemble
  congr 1
  funext i
  rw [find?_ofFn_perm]
  simp

/-- Concurrent execution where every invocation succeeds: tasks run in
schedule order, one tick per task when progress is enabled, and the
reassembled results are the per-item results in input order — the
schedule permutation does not appear in the result. -/
theorem parExec_ok (op : α → κ → Except ε PyVal) (kwargs : κ) (v : Bool)
    (items : List α) (perm : Equiv.Perm (Fin items.length)) (res : α → PyVal)
    (h : ∀ a ∈ items, op a kwargs = Except.ok (res a)) :
    parExec op kwargs v items perm =
      (List.ofFn (fun j => items.get (perm j)),
        (if v then items.length else 0), Except.ok (items.map res)) := by
  unfold parExec
  rw [completionOrder_ok op kwargs items perm res h, collectCompleted_map_ok]
  simp only [Except.map, List.map_ofFn, List.length_ofFn, Function.comp_def]
  have hre : reassemble (List.ofFn fun j => (perm j, res (items.get (perm j))))
      = List.map res items := by
    rw [reassemble_perm perm (fun idx => res (items.get idx))]
    simp [List.get_eq_getElem, List.ofFn_getElem_eq_map]
  rw [hre]

/-- When every per-item invocation succeeds, the wrapper — in either
execution mode, under any pool schedule — assembles exactly the per-item
results in input order, and emits one tick per item iff progress is
enabled. -/
theorem dispatchRun_ok [DecidableEq α] (output_format : String)
    (op : α → κ → Except ε PyVal) (kwargs : κ) (cfg : Config)
    (items : List α) (perm : Equiv.Perm (Fin items.length)) (res : α → PyVal)
    (h : ∀ a ∈ items, op a kwargs = Except.ok (res a)) :
    (dispatchRun output_format op kwargs cfg items perm).output
        = assemble output_format items (items.map res)
      ∧ (dispatchRun output_format op kwargs cfg items perm).ticks
        = (if cfg.verbose then items.length else 0) := by
  unfold dispatchRun
  cases hb : isSequential cfg with
  | true =>
    simp only [hb, if_true, seqExec_ok op kwargs cfg.verbose res items h]
    exact ⟨trivial, trivial⟩
  | false =>
    simp only [hb, Bool.false_eq_true, if_false,
      parExec_ok op kwargs cfg.verbose items perm res h]
    exact ⟨trivial, trivial⟩

/-- Zipping a list with the image of itself under a function is the list of
(element, image) pairs. -/
theorem zip_map_self (items : List α) (res : α → PyVal) :
    items.zip (items.map res) = items.map (fun a => (a, res a)) := by
  have h := List.zip_map' (fun a : α => a) res items
  simpa using h

/-- Exploding rows when every per-item result is a list of records yields
the flattened blocks in input order. -/
theorem explodeRows_lists (items : List α) (recs : α → List PyVal) :
    explodeRows (items.map (fun a => (a, PyVal.list (recs a)))) =
      Except.ok ((items.map (fun a => (recs a).map (fun x => (a, x)))).flatten) := by
  induction items with
  | nil => simp [explodeRows]
  | cons a rest ih => simp [explodeRows, ih, Except.map]

/-- Exploding rows fails with the first non-iterable per-item result. -/
theorem explodeRows_atom (ps : List (α × PyVal))
    (h : ∃ p ∈ ps, ∃ v : Int, p.2 = PyVal.atom v) :
    ∃ v : Int, explodeRows ps = Except.error (PyVal.atom v) := by
  induction ps with
  | nil => simp at h
  | cons p rest ih =>
    cases p with
    | mk item d =>
      cases d with
      | atom v => exact ⟨v, rfl⟩
      | list xs =>
        have hrest : ∃ q ∈ rest, ∃ v : Int, q.2 = PyVal.atom v := by
          rcases h with ⟨q, hq, v, hv⟩
          rcases List.mem_cons.mp hq with hq0 | hq1
          · subst hq0; simp at hv
          · exact ⟨q, hq1, v, hv⟩
        rcases ih hrest with ⟨v, hv⟩
        exact ⟨v, by simp [explodeRows, hv, Except.map]⟩

/-- C1: for every input sequence and every configuration — sequential
(`n_jobs == 1`) or concurrent, under any pool completion schedule — when
every per-item invocation succeeds, the `"list"`-shape batch operation
returns a list whose length equals the input length and whose i-th element
is the wrapped operation's result on the i-th input item. -/
theorem list_output_aligned [DecidableEq α] (op : α → κ → Except ε PyVal)
    (kwargs : κ) (cfg : Config) (items : List α)
    (perm : Equiv.Perm (Fin items.length)) (res : α → PyVal)
    (h : ∀ a ∈ items, op a kwargs = Except.ok (res a)) :
    ∃ out : List PyVal,
      (dispatchRun "list" op kwargs cfg items perm).output
          = Except.ok (Output.list out)
        ∧ out.length = items.length
        ∧ ∀ i : Nat, ∀ hi : i < items.length, ∀ ho : i < out.length,
            op (items.get ⟨i, hi⟩) kwargs = Except.ok (out.get ⟨i, ho⟩) := by
  refine ⟨items.map res, ?_, by simp, ?_⟩
  · rw [(dispatchRun_ok "list" op kwargs cfg items perm res h).1]
    simp [assemble]
  · intro i hi ho
    rw [h (items.get ⟨i, hi⟩) (List.get_mem items i hi)]
    congr 1
    simp [List.get_eq_getElem]

/-- Witness for `list_output_aligned`: items `[10, 20]`, the operation
mapping each item `a` to `atom a`, sequential configuration. -/
theorem list_output_aligned_witness :
    ∃ out : List PyVal,
      (dispatchRun "list"
          (fun (a : Int) (_ : Unit) => (Except.ok (PyVal.atom a) : Except String PyVal))
          () { n_jobs := some 1, verbose := false } [10, 20]
          (Equiv.refl (Fin (([10, 20] : List Int)).length))).output
        = Except.ok (Output.list out)
      ∧ out.length = ([10, 20] : List Int).length
      ∧ ∀ i : Nat, ∀ hi : i < ([10, 20] : List Int).length, ∀ ho : i < out.length,
          (fun (a : Int) (_ : Unit) => (Except.ok (PyVal.atom a) : Except String PyVal))
              (([10, 20] : List Int).get ⟨i, hi⟩) ()
            = Except.ok (out.get ⟨i, ho⟩) :=
  list_output_aligned _ () _ _ _ (fun a => PyVal.atom a) (fun _ _ => rfl)

/-- C3: for every input sequence whose per-item results are lists of
records, the `"dataframe"`-shape batch operation returns the flattened
`(item, record)` rows in block order — all records of the first item, then
all records of the second, and so on — for every configuration and pool
schedule. -/
theorem dataframe_block_order [DecidableEq α] (op : α → κ → Except ε PyVal)
    (kwargs : κ) (cfg : Config) (items : List α)
    (perm : Equiv.Perm (Fin items.length)) (recs : α → List PyVal)
    (h : ∀ a ∈ items, op a kwargs = Except.ok (PyVal.list (recs a))) :
    (dispatchRun "dataframe" op kwargs cfg items perm).output
      = Except.ok (Output.dataframe
          ((items.map (fun a => (recs a).map (fun x => (a, x)))).flatten)) := by
  rw [(dispatchRun_ok "dataframe" op kwargs cfg items perm
    (fun a => PyVal.list (recs a)) h).1]
  simp only [assemble, zip_map_self, explodeRows_lists]
  simp

/-- Witness for `dataframe_block_order`: items `[1, 2]`, each item `a`
yielding the single record `atom a`, concurrent configuration. -/
theorem dataframe_block_order_witness :
    (dispatchRun "dataframe"
        (fun (a : Int) (_ : Unit) =>
          (Except.ok (PyVal.list [PyVal.atom a]) : Except String PyVal))
        () { n_jobs := some 4, verbose := false } [1, 2]
        (Equiv.refl (Fin (([1, 2] : List Int)).length))).output
      = Except.ok (Output.dataframe
          ((([1, 2] : List Int).map
            (fun a => ([PyVal.atom a]).map (fun x => (a, x)))).flatten)) :=
  dataframe_block_order _ () _ _ _ (fun a => [PyVal.atom a]) (fun _ _ => rfl)

/-- C4: for every input sequence on which every per-item invocation
succeeds but some per-item result is not iterable (a scalar), the
`"dataframe"`-shape batch operation fails with the not-iterable error, for
every configuration and pool schedule. -/
theorem dataframe_not_iterable_error [DecidableEq α]
    (op : α → κ → Except ε PyVal) (kwargs : κ) (cfg : Config) (items : List α)
    (perm : Equiv.Perm (Fin items.length)) (res : α → PyVal)
    (h : ∀ a ∈ items, op a kwargs = Except.ok (res a))
    (hbad : ∃ a ∈ items, ∃ v : Int, res a = PyVal.atom v) :
    ∃ v : Int, (dispatchRun "dataframe" op kwargs cfg items perm).output
      = Except.error (BatchError.notIterable (PyVal.atom v)) := by
  rw [(dispatchRun_ok "dataframe" op kwargs cfg items perm res h).1]
  have hps : ∃ p ∈ items.map (fun a => (a, res a)), ∃ v : Int,
      p.2 = PyVal.atom v := by
    rcases hbad with ⟨a, ha, v, hv⟩
    exact ⟨(a, res a), List.mem_map_of_mem _ ha, v, hv⟩
  rcases explodeRows_atom _ hps with ⟨v, hv⟩
  refine ⟨v, ?_⟩
  simp only [assemble, zip_map_self, hv]
  simp

/-- Witness for `dataframe_not_iterable_error`: the single item `5` whose
result is the scalar `atom 7`. -/
theorem dataframe_not_iterable_error_witness :
    ∃ v : Int, (dispatchRun "dataframe"
        (fun (_ : Int) (_ : Unit) => (Except.ok (PyVal.atom 7) : Except String PyVal))
        () { n_jobs := some 1, verbose := false } [5]
        (Equiv.refl (Fin (([5] : List Int)).length))).output
      = Except.error (BatchError.notIterable (PyVal.atom v)) :=
  dataframe_not_iterable_error _ () _ _ _ (fun _ => PyVal.atom 7)
    (fun _ _ => rfl) ⟨5, by simp, 7, rfl⟩

/-- C5: an empty input sequence yields the empty instance of each of the
three output shapes — empty list, empty dict, empty dataframe — and never
an error, for every configuration and pool schedule. -/
theorem empty_input_empty_output [DecidableEq α] (op : α → κ → Except ε PyVal)
    (kwargs : κ) (cfg : Config)
    (perm : Equiv.Perm (Fin (([] : List α)).length)) :
    (dispatchRun "list" op kwargs cfg [] perm).output
        = Except.ok (Output.list [])
      ∧ (dispatchRun "dict" op kwargs cfg [] perm).output
        = Except.ok (Output.dict [])
      ∧ (dispatchRun "dataframe" op kwargs cfg [] perm).output
        = Except.ok (Output.dataframe []) := by
  have h : ∀ a ∈ ([] : List α), op a kwargs = Except.ok (PyVal.atom 0) := by
    simp
  refine ⟨?_, ?_, ?_⟩ <;>
  · rw [(dispatchRun_ok _ op kwargs cfg [] perm (fun _ => PyVal.atom 0) h).1]
    simp [assemble, pyDictOfPairs, explodeRows]

/-- C2: evaluation of the `"dict"`-shape batch operation at the duplicate
input `[0, 0]`: the dict comprehension silently collapses the two entries
into a single-entry mapping (the later result overwriting the earlier) and
raises no duplicate-key error. -/
theorem dict_duplicate_items_eval :
    (dispatchRun "dict"
        (fun (_ : Int) (_ : Unit) =>
          (Except.ok (PyVal.atom 5) : Except String PyVal))
        () { n_jobs := some 1, verbose := false } [0, 0]
        (Equiv.refl (Fin (([0, 0] : List Int)).length))).output
      = Except.ok (Output.dict [(0, PyVal.atom 5)]) := rfl

/-- Sequential execution that fails at index `k` after succeeding on all
earlier indices: the loop visits exactly the first `k + 1` items and aborts
with the underlying error. -/
theorem seqExec_fail (op : α → κ → Except ε PyVal) (kwargs : κ) (v : Bool) :
    ∀ (items : List α) (k : Nat) (hk : k < items.length) (e : ε),
      op (items.get ⟨k, hk⟩) kwargs = Except.error e →
      (∀ i : Nat, ∀ hi : i < items.length, i < k →
        ∃ r, op (items.get ⟨i, hi⟩) kwargs = Except.ok r) →
      (seqExec op kwargs v items).1 = items.take (k + 1)
        ∧ (seqExec op kwargs v items).2.2 = Except.error e := by
  intro items
  induction items with
  | nil => intro k hk; exact absurd hk (by simp)
  | cons a rest ih =>
    intro k hk e hfail hok
    cases k with
    | zero =>
      have ha : op a kwargs = Except.error e := hfail
      simp [seqExec, ha]
    | succ j =>
      rcases hok 0 (by simp) (by omega) with ⟨r, hr⟩
      have hr' : op a kwargs = Except.ok r := hr
      have hj : j < rest.length := by
        simpa [Nat.succ_lt_succ_iff] using hk
      have hfail' : op (rest.get ⟨j, hj⟩) kwargs = Except.error e := hfail
      have hok' : ∀ i : Nat, ∀ hi : i < rest.length, i < j →
          ∃ r, op (rest.get ⟨i, hi⟩) kwargs = Except.ok r :=
        fun i hi hij => hok (i + 1) (by simpa [Nat.succ_lt_succ_iff] using hi)
          (by omega)
      rcases ih j hj e hfail' hok' with ⟨h1, h2⟩
      simp [seqExec, hr', h1, h2, Except.map]

/-- C6 (amended): in sequential mode (`n_jobs == 1`), if the wrapped
operation succeeds on the first `k` items and fails on the item at index
`k`, the batch operation invokes the operation on exactly the first `k + 1`
items in input order, then raises the wrapped operation's error unchanged;
no partial aggregate is returned. -/
theorem seq_fail_fast [DecidableEq α] (output_format : String)
    (op : α → κ → Except ε PyVal) (kwargs : κ) (cfg : Config)
    (items : List α) (perm : Equiv.Perm (Fin items.length))
    (k : Nat) (e : ε)
    (hseq : cfg.n_jobs = some 1)
    (hk : k < items.length)
    (hfail : op (items.get ⟨k, hk⟩) kwargs = Except.error e)
    (hok : ∀ i : Nat, ∀ hi : i < items.length, i < k →
      ∃ r, op (items.get ⟨i, hi⟩) kwargs = Except.ok r) :
    (dispatchRun output_format op kwargs cfg items perm).invoked
        = items.take (k + 1)
      ∧ (dispatchRun output_format op kwargs cfg items perm).output
        = Except.error (BatchError.task e) := by
  have hb : isSequential cfg = true := by simp [isSequential, hseq]
  rcases seqExec_fail op kwargs cfg.verbose items k hk e hfail hok with ⟨h1, h2⟩
  unfold dispatchRun
  simp [hb, h1, h2]

/-- Witness for `seq_fail_fast`: five items `[1, 2, 3, 4, 5]`, the
operation failing on item `3` (index 2): exactly the first three items are
invoked and the underlying error surfaces. -/
theorem seq_fail_fast_witness :
    (dispatchRun "list"
        (fun (a : Int) (_ : Unit) =>
          if a = 3 then (Except.error "boom" : Except String PyVal)
          else Except.ok (PyVal.atom a))
        () { n_jobs := some 1, verbose := false } [1, 2, 3, 4, 5]
        (Equiv.refl (Fin (([1, 2, 3, 4, 5] : List Int)).length))).invoked
        = ([1, 2, 3, 4, 5] : List Int).take (2 + 1)
      ∧ (dispatchRun "list"
        (fun (a : Int) (_ : Unit) =>
          if a = 3 then (Except.error "boom" : Except String PyVal)
          else Except.ok (PyVal.atom a))
        () { n_jobs := some 1, verbose := false } [1, 2, 3, 4, 5]
        (Equiv.refl (Fin (([1, 2, 3, 4, 5] : List Int)).length))).output
        = Except.error (BatchError.task "boom") :=
  seq_fail_fast "list" _ () _ _ _ 2 "boom" rfl (by simp) rfl
    (by
      intro i hi h2
      interval_cases i
      · exact ⟨PyVal.atom 1, rfl⟩
      · exact ⟨PyVal.atom 2, rfl⟩)

/-- C6 counterexample: two sequential batch runs failing on different
items — on item `1` in the first run and on item `2` in the second —
surface the very same error value: the raised error is the wrapped
operation's own error propagating unchanged; it does not carry the
originating item. -/
theorem seq_failure_error_carries_no_item :
    ((dispatchRun "list"
        (fun (_ : Int) (_ : Unit) => (Except.error 7 : Except Int PyVal))
        () { n_jobs := some 1, verbose := false } [1]
        (Equiv.refl (Fin (([1] : List Int)).length))).output
      = Except.error (BatchError.task 7))
    ∧ ((dispatchRun "list"
        (fun (_ : Int) (_ : Unit) => (Except.error 7 : Except Int PyVal))
        () { n_jobs := some 1, verbose := false } [2]
        (Equiv.refl (Fin (([2] : List Int)).length))).output
      = Except.error (BatchError.task 7))
    ∧ (1 : Int) ≠ 2 :=
  ⟨rfl, rfl, by decide⟩

/-- C7: for every batch invocation whose per-item operations all succeed,
in either execution mode and under any pool schedule, the progress sink
receives exactly `items.length` completion ticks when progress is enabled
and zero ticks when it is disabled. -/
theorem progress_tick_count [DecidableEq α] (output_format : String)
    (op : α → κ → Except ε PyVal) (kwargs : κ) (cfg : Config)
    (items : List α) (perm : Equiv.Perm (Fin items.length)) (res : α → PyVal)
    (h : ∀ a ∈ items, op a kwargs = Except.ok (res a)) :
    (dispatchRun output_format op kwargs cfg items perm).ticks
      = (if cfg.verbose then items.length else 0) :=
  (dispatchRun_ok output_format op kwargs cfg items perm res h).2

/-- Witness for `progress_tick_count`: two items with progress enabled in
concurrent mode — exactly two ticks. -/
theorem progress_tick_count_witness :
    (dispatchRun "list"
        (fun (a : Int) (_ : Unit) =>
          (Except.ok (PyVal.atom a) : Except String PyVal))
        () { n_jobs := some 4, verbose := true } [8, 9]
        (Equiv.refl (Fin (([8, 9] : List Int)).length))).ticks
      = (if ({ n_jobs := some 4, verbose := true } : Config).verbose
          then ([8, 9] : List Int).length else 0) :=
  progress_tick_count "list" _ () _ _ _ (fun a => PyVal.atom a) (fun _ _ => rfl)

/-- C8: for a deterministic, side-effect-free wrapped operation that
succeeds on every item, the concurrent-mode batch (`n_jobs = n > 1`, any
pool schedule) and the sequential-mode batch (`n_jobs = 1`) return the same
aggregated output, whatever the configured output shape. -/
theorem par_seq_same_output [DecidableEq α] (output_format : String)
    (op : α → κ → Except ε PyVal) (kwargs : κ) (items : List α)
    (cfgSeq cfgPar : Config)
    (permS permP : Equiv.Perm (Fin items.length))
    (res : α → PyVal) (n : Int)
    (hseq : cfgSeq.n_jobs = some 1) (hpar : cfgPar.n_jobs = some n)
    (hn : 1 < n)
    (h : ∀ a ∈ items, op a kwargs = Except.ok (res a)) :
    (dispatchRun output_format op kwargs cfgPar items permP).output
      = (dispatchRun output_format op kwargs cfgSeq items permS).output := by
  rw [(dispatchRun_ok output_format op kwargs cfgPar items permP res h).1,
    (dispatchRun_ok output_format op kwargs cfgSeq items permS res h).1]

/-- Witness for `par_seq_same_output`: items `[3, 4]`, `n_jobs = 4` with
the pool completing the two tasks in swapped order, against `n_jobs = 1`. -/
theorem par_seq_same_output_witness :
    (dispatchRun "dict"
        (fun (a : Int) (_ : Unit) =>
          (Except.ok (PyVal.atom a) : Except String PyVal))
        () { n_jobs := some 4, verbose := false } [3, 4]
        (Equiv.swap (⟨0, by decide⟩ : Fin (([3, 4] : List Int)).length)
          ⟨1, by decide⟩)).output
      = (dispatchRun "dict"
        (fun (a : Int) (_ : Unit) =>
          (Except.ok (PyVal.atom a) : Except String PyVal))
        () { n_jobs := some 1, verbose := false } [3, 4]
        (Equiv.refl (Fin (([3, 4] : List Int)).length))).output :=
  par_seq_same_output "dict" _ () _ _ _ _ _ (fun a => PyVal.atom a) 4
    rfl rfl (by decide) (fun _ _ => rfl)

/-- C9: when the `output_format` fixed at wrap time is none of `"list"`,
`"dict"`, `"dataframe"`, the assembly conditional has no matching branch
and the wrapper returns Python `None` — no error, no aggregate — for every
input whose per-item invocations succeed, in either execution mode. -/
theorem unknown_format_returns_none [DecidableEq α] (output_format : String)
    (op : α → κ → Except ε PyVal) (kwargs : κ) (cfg : Config)
    (items : List α) (perm : Equiv.Perm (Fin items.length)) (res : α → PyVal)
    (h : ∀ a ∈ items, op a kwargs = Except.ok (res a))
    (hfmt : output_format ≠ "list" ∧ output_format ≠ "dict"
      ∧ output_format ≠ "dataframe") :
    (dispatchRun output_format op kwargs cfg items perm).output
      = Except.ok Output.none := by
  rw [(dispatchRun_ok output_format op kwargs cfg items perm res h).1]
  rcases hfmt with ⟨h1, h2, h3⟩
  simp [assemble, h1, h2, h3]

/-- Witness for `unknown_format_returns_none`: `output_format = "series"`
on a two-item input returns `None`. -/
theorem unknown_format_returns_none_witness :
    (dispatchRun "series"
        (fun (a : Int) (_ : Unit) =>
          (Except.ok (PyVal.atom a) : Except String PyVal))
        () { n_jobs := some 1, verbose := false } [1, 2]
        (Equiv.refl (Fin (([1, 2] : List Int)).length))).output
      = Except.ok Output.none :=
  unknown_format_returns_none "series" _ () _ _ _ (fun a => PyVal.atom a)
    (fun _ _ => rfl) (by refine ⟨?_, ?_, ?_⟩ <;> decide)

/-- C10: the sequential branch is taken exactly when `n_jobs` is the
integer `1`; the constructor's default when the caller supplies no
`n_jobs` keyword is `None`, and a client left at that default takes the
concurrent worker-pool branch. -/
theorem sequential_iff_njobs_one :
    (∀ cfg : Config, isSequential cfg = true ↔ cfg.n_jobs = some 1)
      ∧ initNJobs none = none
      ∧ ∀ v : Bool,
          isSequential { n_jobs := initNJobs none, verbose := v } = false := by
  refine ⟨?_, rfl, ?_⟩
  · intro cfg
    simp [isSequential]
  · intro v
    simp [isSequential, initNJobs]

end Grotto
